import Mathlib

/-!
Shallow embedding of the rssss backend (src/backend/src/rss.rs, main.rs,
error.rs): a multi-dialect streaming feed parser (RSS 2.0 / Atom / RSS 1.0)
together with the bounded redirect-following fetch protocol.

Strings are modelled as `List Char` (`Str`); the UTF-8 byte length of a
Rust `&str` is `utf8Len`.  XML events are modelled at the level the code
consumes them (the `xml-rs` `EventReader` is an external crate): an input
document is a list of reader items, each either a well-formedness error
message or an `XmlEvent`.  The HTML text-node extraction done by the
external `scraper` crate inside `Rss::pick_texts` is a parameter
`extract : Str → List Str` (the list of text nodes in document order).
-/

namespace Rssss

set_option maxRecDepth 8000

/-- Rust `&str` / `String`, modelled as its list of Unicode scalar values. -/
abbrev Str := List Char

/-- UTF-8 byte length of a string (Rust `str::len`). -/
def utf8Len : Str → Nat
  | [] => 0
  | c :: cs => c.utf8Size + utf8Len cs

/-- The set of `char::is_whitespace` characters (Unicode `White_Space`),
 used by Rust `str::trim_start` / `trim_end`. -/
def rustWhitespace (c : Char) : Bool :=
  c.toNat = 0x09 || c.toNat = 0x0A || c.toNat = 0x0B || c.toNat = 0x0C ||
  c.toNat = 0x0D || c.toNat = 0x20 || c.toNat = 0x85 || c.toNat = 0xA0 ||
  c.toNat = 0x1680 || (0x2000 ≤ c.toNat && c.toNat ≤ 0x200A) ||
  c.toNat = 0x2028 || c.toNat = 0x2029 || c.toNat = 0x202F ||
  c.toNat = 0x205F || c.toNat = 0x3000

/-- `Rss::trim`: `s.trim_start().trim_end().to_string()`. -/
def trimStr (s : Str) : Str :=
  ((s.dropWhile rustWhitespace).reverse.dropWhile rustWhitespace).reverse

/-- `Rss::DESCRIPTION_LIMIT`. -/
def descriptionLimit : Nat := 500

/-- The literal `"..."` pushed by `Rss::pick_texts` on truncation. -/
def dots : Str := "...".toList

/-- The byte index `end` computed by `Rss::pick_texts` before slicing
 `&text[..end]`: the chars iterator takes `limit` characters and sums
 their `len_utf8()`. -/
def sliceEnd (text : Str) (limit : Nat) : Nat :=
  utf8Len (List.take limit text)

/-- The `for text in document.root_element().text()` loop of
 `Rss::pick_texts`, with `texts` the accumulator.  `texts.len()` and
 `text.len()` in the source are byte lengths (`utf8Len`); the slice
 `&text[..end]` is exactly the first `limit` characters of `text`
 (see `sliceEnd`). -/
def pickTextsLoop : List Str → Str → Str
  | [], texts => texts
  | text :: rest, texts =>
    if descriptionLimit < utf8Len texts then texts
    else
      let limit := descriptionLimit - utf8Len texts
      if limit < utf8Len text then
        pickTextsLoop rest (texts ++ List.take limit text ++ dots)
      else
        pickTextsLoop rest (texts ++ text)

/-- `Rss::pick_texts`, applied to the document-order text nodes of the
 parsed markup. -/
def pick_texts (nodes : List Str) : Str :=
  pickTextsLoop nodes []

/-! ## Qualified names, attributes, XML reader events -/

/-- `xml::name::OwnedName`: local name, optional prefix, optional
 (resolved) namespace URI.  Rust field names `local_name` / `prefix` /
 `namespace` — the latter two are Lean keywords-adjacent, kept as `pfx`
 and `ns`. -/
structure QName where
  local_name : Str
  pfx : Option Str
  ns : Option Str
deriving DecidableEq, Repr

/-- `Display for Name` in xml-rs: `{namespace}` in braces, then
 `prefix:`, then the local name; this is what `name.to_string()`
 compares against `"item"`, `"version"`, `"rel"`, `"href"`. -/
def qnameToString (n : QName) : Str :=
  (match n.ns with
   | some x => '\x7b' :: (x ++ ['\x7d'])
   | none => []) ++
  (match n.pfx with
   | some p => p ++ [':']
   | none => []) ++ n.local_name

/-- `xml::attribute::OwnedAttribute`. -/
structure OwnedAttribute where
  name : QName
  value : Str
deriving DecidableEq, Repr

/-- The namespace-URI constants of `impl Rss`. -/
def rdfNs : Str := "http://purl.org/rss/1.0/".toList

def rdfSyntaxNs : Str := "http://www.w3.org/1999/02/22-rdf-syntax-ns#".toList

def elementsNs : Str := "http://purl.org/dc/elements/1.1/".toList

def contentNs : Str := "http://purl.org/rss/1.0/modules/content/".toList

def atomNs : Str := "http://www.w3.org/2005/Atom".toList

def mediaNs : Str := "http://search.yahoo.com/mrss/".toList

/-- The events the `parse` loop distinguishes.  `characters` also stands
 for `CData` (the source handles both with one arm); `other` covers the
 `_ => ()` arm (`EndDocument`, `Whitespace`, comments, PIs). -/
inductive XmlEvent where
  | startDocument (encoding : Str)
  | startElement (name : QName) (attrs : List OwnedAttribute)
  | characters (data : Str)
  | endElement (name : QName)
  | other
deriving DecidableEq, Repr

/-- One item yielded by the `EventReader` iterator: `elem?` either gets an
 event or propagates the reader's error (whose `to_string()` becomes the
 single message of the resulting `Error<String>`). -/
abbrev ReaderItem := Except Str XmlEvent

/-- The normalized output unit `Rss` (serialized as a feed entry). -/
structure Rss where
  title : Str
  description : Str
  link : Str
  pub_date : Option Str
deriving DecidableEq, Repr

/-- `Rss::new`: trims the title, runs the description through
 `pick_texts` (whose text-node extraction over the embedded markup is the
 external `scraper` crate, the `extract` parameter) and trims it; link
 and pub_date are passed through verbatim. -/
def Rss.new (extract : Str → List Str)
    (title description link : Str) (pub_date : Option Str) : Rss :=
  { title := trimStr title
    description := trimStr (pick_texts (extract description))
    link := link
    pub_date := pub_date }

/-! ## The shared parser state and the three dialect parsers

`RssV20`, `Atom` and `RssV10` in the source are three structs with
identical fields; they are modelled as one state type `PState` plus a
`Dialect` tag selecting the trait implementation. -/

structure PState where
  results : List Rss
  elements : List (QName × List OwnedAttribute)
  title : Str
  link : Str
  description : Str
  pub_date : Option Str
deriving DecidableEq, Repr

/-- `RssV20::new()` / `Atom::new()` / `RssV10::new()`. -/
def initState : PState :=
  { results := [], elements := [], title := [], link := []
    description := [], pub_date := none }

inductive Dialect where
  | v20
  | atom
  | v10
deriving DecidableEq, Repr

/-- `name()` of each parser. -/
def dialectName : Dialect → Str
  | .v20 => "RSS V2".toList
  | .atom => "Atom".toList
  | .v10 => "RSS V1".toList

/-- `RssV20::is_item`: `name.to_string() == "item"`. -/
def isItemV20 (n : QName) : Bool :=
  qnameToString n == "item".toList

/-- `Atom::is_entry`. -/
def isEntry (n : QName) : Bool :=
  n.ns == some atomNs && n.local_name == "entry".toList

/-- `Atom::is_media_ns`. -/
def isMediaNs (n : QName) (localName : Str) : Bool :=
  n.ns == some mediaNs && n.local_name == localName

/-- ASCII-lowercasing of one char, for `eq_ignore_ascii_case`. -/
def asciiLowerChar (c : Char) : Char :=
  if 'A' ≤ c && c ≤ 'Z' then Char.ofNat (c.toNat + 32) else c

/-- Rust `str::eq_ignore_ascii_case`. -/
def eqIgnoreAsciiCase (a b : Str) : Bool :=
  a.map asciiLowerChar == b.map asciiLowerChar

/-- `RssV10::is_item`: case-insensitive `item` in the RDF content
 namespace. -/
def isItemV10 (n : QName) : Bool :=
  eqIgnoreAsciiCase n.local_name "item".toList && n.ns == some rdfNs

/-- `Atom::is_media_description`: entry → media:group →
 media:description, inspecting three stack frames. -/
def isMediaDescription (st : PState) : Bool :=
  match st.elements with
  | (n0, _) :: (n1, _) :: (n2, _) :: _ =>
    isEntry n2 && isMediaNs n1 "group".toList && isMediaNs n0 "description".toList
  | _ => false

/-- `parse_start_element` of each dialect.  All three push the frame on
 the front of the `elements` deque; `Atom` first captures `href` as the
 link when the element is `atom:link` and no `rel` attribute with a value
 other than `"self"` / `"alternate"` is present. -/
def parseStartElement : Dialect → PState → QName → List OwnedAttribute → PState
  | .atom, st, name, attrs =>
    let st :=
      if name.ns == some atomNs && name.local_name == "link".toList &&
         (attrs.find? (fun a =>
            qnameToString a.name == "rel".toList &&
            a.value != "self".toList && a.value != "alternate".toList)).isNone
      then
        match attrs.find? (fun a => qnameToString a.name == "href".toList) with
        | some a => { st with link := a.value }
        | none => st
      else st
    { st with elements := (name, attrs) :: st.elements }
  | _, st, name, attrs =>
    { st with elements := (name, attrs) :: st.elements }

/-- `parse_content` of each dialect.  Returns early when fewer than two
 elements are open; otherwise the immediate parent (`elements[1]`) must
 be the item/entry boundary; the innermost element (`elements[0]`)
 selects the field, with the match arms in source order.  `Atom` first
 handles the `media:description` three-deep special case. -/
def parseContent : Dialect → PState → Str → PState
  | .v20, st, data =>
    match st.elements with
    | (name, _) :: (parent, _) :: _ =>
      if !isItemV20 parent then st
      else if name.local_name == "title".toList then { st with title := data }
      else if name.local_name == "link".toList then { st with link := data }
      else if name.local_name == "description".toList then
        { st with description := data }
      else if name.ns == some contentNs && name.local_name == "encoded".toList then
        if st.description == [] then { st with description := data } else st
      else if name.local_name == "pubDate".toList then
        { st with pub_date := some data }
      else st
    | _ => st
  | .atom, st, data =>
    if isMediaDescription st && st.description == [] then
      { st with description := data }
    else
      match st.elements with
      | (name, _) :: (parent, _) :: _ =>
        if !isEntry parent then st
        else if name.ns == some atomNs && name.local_name == "title".toList then
          { st with title := data }
        else if name.ns == some atomNs && name.local_name == "content".toList then
          { st with description := data }
        else if name.ns == some atomNs && name.local_name == "published".toList then
          { st with pub_date := some data }
        else if name.ns == some atomNs && name.local_name == "updated".toList then
          if st.pub_date.isNone then { st with pub_date := some data } else st
        else st
      | _ => st
  | .v10, st, data =>
    match st.elements with
    | (name, _) :: (parent, _) :: _ =>
      if !isItemV10 parent then st
      else if name.ns == some rdfNs && name.local_name == "title".toList then
        { st with title := data }
      else if name.ns == some rdfNs && name.local_name == "link".toList then
        { st with link := data }
      else if name.ns == some rdfNs && name.local_name == "description".toList then
        { st with description := data }
      else if name.ns == some contentNs && name.local_name == "encoded".toList then
        if st.description == [] then { st with description := data } else st
      else if name.ns == some elementsNs && name.local_name == "date".toList then
        { st with pub_date := some data }
      else st
    | _ => st

/-- The item/entry boundary test used by `parse_end_element`. -/
def isBoundary : Dialect → QName → Bool
  | .v20, n => isItemV20 n
  | .atom, n => isEntry n
  | .v10, n => isItemV10 n

/-- `parse_end_element` of each dialect: on an item/entry end tag, emit
 one `Rss` built from the accumulator through `Rss::new` and reset the
 accumulator; then pop the front of the element deque. -/
def parseEndElement (extract : Str → List Str) (k : Dialect)
    (st : PState) (name : QName) : PState :=
  let st :=
    if isBoundary k name then
      { st with
        results := st.results ++
          [Rss.new extract st.title st.description st.link st.pub_date]
        title := [], link := [], description := [], pub_date := none }
    else st
  { st with elements := st.elements.tail }

/-! ## Root verification and error messages -/

/-- `format!("[{}] invalid root element: {}", name(), local_name)`. -/
def msgInvalidRoot (k : Dialect) (localName : Str) : Str :=
  "[".toList ++ dialectName k ++ "] invalid root element: ".toList ++ localName

/-- Rust `Debug` formatting of a `&str`, as used inside
 `{:?}` on `Option<&str>` (quote/backslash escaping; the namespaces the
 code prints contain neither). -/
def debugEscape (s : Str) : Str :=
  s.foldr (fun c acc =>
    if c = '\"' then '\\' :: '\"' :: acc
    else if c = '\\' then '\\' :: '\\' :: acc
    else c :: acc) []

/-- `format!("{:?}", namespace_ref())` on an `Option<&str>`. -/
def debugFmtOpt : Option Str → Str
  | none => "None".toList
  | some s => "Some(\"".toList ++ debugEscape s ++ "\")".toList

/-- `format!("[{}] invalid root namespace: {:?}", name(), ns)`. -/
def msgInvalidRootNs (k : Dialect) (ns : Option Str) : Str :=
  "[".toList ++ dialectName k ++ "] invalid root namespace: ".toList ++
    debugFmtOpt ns

/-- `format!("[{}] unsupported encoding: {}", name(), encoding)`. -/
def msgUnsupportedEncoding (k : Dialect) (enc : Str) : Str :=
  "[".toList ++ dialectName k ++ "] unsupported encoding: ".toList ++ enc

/-- `format!("[RSS V2] unsupported RSS version: {}", version)`. -/
def msgUnsupportedVersion (v : Str) : Str :=
  "[RSS V2] unsupported RSS version: ".toList ++ v

/-- `format!("[RSS V2] undefined RSS version")`. -/
def msgUndefinedVersion : Str :=
  "[RSS V2] undefined RSS version".toList

/-- `verify_rss` of each dialect.  The source reads `self.elements[0]`;
 `verify_rss` is only ever called right after `parse_start_element`
 pushed `(name, attrs)` on the front (see `parseLoop`), so it is modelled
 directly on that pair.  Errors are `Error<String>` values, i.e. message
 lists (always singletons here). -/
def verifyRssPair : Dialect → QName × List OwnedAttribute → Except (List Str) Unit
  | .v20, (name, attrs) =>
    if name.local_name != "rss".toList then
      .error [msgInvalidRoot .v20 name.local_name]
    else
      match (attrs.find? (fun a => qnameToString a.name == "version".toList)).map
              (fun a => a.value) with
      | some v => if v == "2.0".toList then .ok () else .error [msgUnsupportedVersion v]
      | none => .error [msgUndefinedVersion]
  | .atom, (name, _) =>
    if name.local_name != "feed".toList then
      .error [msgInvalidRoot .atom name.local_name]
    else if name.ns != some atomNs then
      .error [msgInvalidRootNs .atom name.ns]
    else .ok ()
  | .v10, (name, _) =>
    if !eqIgnoreAsciiCase name.local_name "rdf".toList then
      .error [msgInvalidRoot .v10 name.local_name]
    else if name.ns != some rdfSyntaxNs then
      .error [msgInvalidRootNs .v10 name.ns]
    else .ok ()

/-! ## The driving loop, one dialect attempt, and the dispatcher -/

/-- ASCII uppercasing, modelling `str::to_uppercase` on the (ASCII)
 encoding names the XML reader reports. -/
def asciiUpperChar (c : Char) : Char :=
  if 'a' ≤ c && c ≤ 'z' then Char.ofNat (c.toNat - 32) else c

def asciiUpper (s : Str) : Str := s.map asciiUpperChar

/-- The `for elem in reader` loop of `fn parse`, with the `root` flag.
 A reader error aborts with that error's message (`From<XMLReaderError>`
 wraps it as a single-message `Error<String>`); a non-UTF-8
 `StartDocument` aborts with the unsupported-encoding message; the first
 `StartElement` additionally runs `verify_rss` (after the frame was
 pushed) and aborts on its failure. -/
def parseLoop (extract : Str → List Str) (k : Dialect) :
    List ReaderItem → PState → Bool → Except (List Str) (List Rss)
  | [], st, _ => .ok st.results
  | .error e :: _, _, _ => .error [e]
  | .ok ev :: rest, st, root =>
    match ev with
    | .startDocument enc =>
      if asciiUpper enc != "UTF-8".toList then
        .error [msgUnsupportedEncoding k enc]
      else parseLoop extract k rest st root
    | .startElement n a =>
      let st := parseStartElement k st n a
      if root then
        match verifyRssPair k (n, a) with
        | .ok _ => parseLoop extract k rest st false
        | .error e => .error e
      else parseLoop extract k rest st false
    | .characters d => parseLoop extract k rest (parseContent k st d) root
    | .endElement n => parseLoop extract k rest (parseEndElement extract k st n) root
    | .other => parseLoop extract k rest st root

/-- `fn parse(buf, parser)`: run the loop from a fresh parser state. -/
def parse (extract : Str → List Str) (k : Dialect)
    (input : List ReaderItem) : Except (List Str) (List Rss) :=
  parseLoop extract k input initState true

/-- `pub fn parse_rss`: try RSS 2.0, then Atom, then RSS 1.0, returning
 the first success; if all fail, aggregate the three errors
 (`From<Vec<Error<T>>>` concatenates the message lists in order). -/
def parse_rss (extract : Str → List Str)
    (input : List ReaderItem) : Except (List Str) (List Rss) :=
  match parse extract .v20 input with
  | .ok r => .ok r
  | .error e1 =>
    match parse extract .atom input with
    | .ok r => .ok r
    | .error e2 =>
      match parse extract .v10 input with
      | .ok r => .ok r
      | .error e3 => .error (e1 ++ e2 ++ e3)

/-! ## The fetcher / redirect protocol (main.rs)

A `ClientResponse` is modelled by its status code, its optional
`Location` header, and its body, already in reader-item form (the body
bytes are only ever handed to `parse_rss`).  The network is a function
`fetch : Str → Response` standing for `send_request`; `actix`'s
`StatusCode::is_success` is `200..=299`, `is_redirection` is
`300..=399`. -/

structure Response where
  status : Nat
  location : Option Str
  body : List ReaderItem

/-- The HTTP responses `retrieve_response` can produce: `200 OK` with the
 entry list, `400 Bad Request` with the aggregated parse errors
 (`impl From<error::Error> for HttpResponse`), `500 Internal Server
 Error` with empty body, or an echo of the upstream status with empty
 body. -/
inductive HttpOut where
  | ok (entries : List Rss)
  | badRequest (msgs : List Str)
  | internalServerError
  | echo (status : Nat)
deriving DecidableEq, Repr

def isSuccessStatus (s : Nat) : Bool := 200 ≤ s && s < 300

def isRedirectionStatus (s : Nat) : Bool := 300 ≤ s && s < 400

/-- The 2xx branch of `retrieve_response`: parse the body; `Ok` becomes
 `200` + JSON, `Err` becomes `400` + JSON via `e.into()`. -/
def toHttpOut : Except (List Str) (List Rss) → HttpOut
  | .ok r => .ok r
  | .error e => .badRequest e

/-- `fn retrieve_response(res, redirect_limit)`.  On 2xx: parse.  On 3xx
 with remaining budget: follow `Location`, or `500` when the header is
 absent.  Everything else — including a 3xx once the budget is 0 —
 falls to the final branch which echoes the status with an empty
 body. -/
def retrieveResponse (extract : Str → List Str) (fetch : Str → Response) :
    Nat → Response → HttpOut
  | limit, res =>
    if isSuccessStatus res.status then toHttpOut (parse_rss extract res.body)
    else
      match limit with
      | l + 1 =>
        if isRedirectionStatus res.status then
          match res.location with
          | some url => retrieveResponse extract fetch l (fetch url)
          | none => .internalServerError
        else .echo res.status
      | 0 => .echo res.status

/-- `fn get_feed`: send the initial request, then
 `retrieve_response(r, 3)`. -/
def get_feed (extract : Str → List Str) (fetch : Str → Response)
    (url : Str) : HttpOut :=
  retrieveResponse extract fetch 3 (fetch url)

/-- Number of `send_request` calls made by `retrieve_response` while
 following redirects (mirrors the recursion of `retrieveResponse`:
 exactly the `send_request(&url)` in the some-Location branch). -/
def followFetches (fetch : Str → Response) : Nat → Response → Nat
  | limit, res =>
    if isSuccessStatus res.status then 0
    else
      match limit with
      | l + 1 =>
        if isRedirectionStatus res.status then
          match res.location with
          | some url => 1 + followFetches fetch l (fetch url)
          | none => 0
        else 0
      | 0 => 0

/-- Total fetch operations of one `get_feed` call: the initial
 `send_request` plus the redirect-following ones. -/
def getFeedFetches (fetch : Str → Response) (url : Str) : Nat :=
  1 + followFetches fetch 3 (fetch url)

/-! ## Generated RSS 2.0 documents

A generative model of well-formed RSS 2.0 documents: a `rss version="2.0"`
root, a `channel`, and a list of children, each either an `item` (a list
of simple fields, each an element holding one text node — the reader
emits no `Characters` event for an empty element) or a non-item element
with some text nodes.  These render to exactly the reader-item streams
the real reader produces for such documents. -/

structure ItemField where
  name : QName
  text : Str
deriving DecidableEq, Repr

inductive ChannelChild where
  | item (fields : List ItemField)
  | junk (name : QName) (texts : List Str)
deriving DecidableEq, Repr

def rssQ : QName := ⟨"rss".toList, none, none⟩

def channelQ : QName := ⟨"channel".toList, none, none⟩

def itemQ : QName := ⟨"item".toList, none, none⟩

def versionAttr : OwnedAttribute := ⟨⟨"version".toList, none, none⟩, "2.0".toList⟩

def renderField (f : ItemField) : List ReaderItem :=
  [.ok (.startElement f.name [])] ++
  (if f.text = [] then [] else [.ok (.characters f.text)]) ++
  [.ok (.endElement f.name)]

def renderFields : List ItemField → List ReaderItem
  | [] => []
  | f :: fs => renderField f ++ renderFields fs

def renderTexts : List Str → List ReaderItem
  | [] => []
  | t :: ts => .ok (.characters t) :: renderTexts ts

def renderChild : ChannelChild → List ReaderItem
  | .item fs => .ok (.startElement itemQ []) :: (renderFields fs ++ [.ok (.endElement itemQ)])
  | .junk n ts => .ok (.startElement n []) :: (renderTexts ts ++ [.ok (.endElement n)])

def renderChildren : List ChannelChild → List ReaderItem
  | [] => []
  | c :: cs => renderChild c ++ renderChildren cs

def renderDoc (cs : List ChannelChild) : List ReaderItem :=
  .ok (.startDocument "UTF-8".toList) ::
  .ok (.startElement rssQ [versionAttr]) ::
  .ok (.startElement channelQ []) ::
  (renderChildren cs ++ [.ok (.endElement channelQ), .ok (.endElement rssQ)])

/-- No element of the generated document other than the item boundaries
 may look like an item to `RssV20::is_item`. -/
def goodChild : ChannelChild → Prop
  | .item fs => ∀ f ∈ fs, qnameToString f.name ≠ "item".toList
  | .junk n _ => qnameToString n ≠ "item".toList

instance : DecidablePred goodChild := by
  intro c
  cases c with
  | item fs => exact inferInstanceAs (Decidable (∀ f ∈ fs, _ ≠ _))
  | junk n ts => exact inferInstanceAs (Decidable (_ ≠ _))

def goodChannel (cs : List ChannelChild) : Prop := ∀ c ∈ cs, goodChild c

instance (cs : List ChannelChild) : Decidable (goodChannel cs) := by
  unfold goodChannel
  infer_instance

/-- Spec-side field extraction for one item, independent of the parser's
 state machine: the value of the last field matching `p` that actually
 carries text. -/
def lastWrite (p : ItemField → Bool) : List ItemField → Option Str
  | [] => none
  | f :: fs =>
    match lastWrite p fs with
    | some t => some t
    | none => if p f && f.text != [] then some f.text else none

/-- The value of the first field matching `p` that carries text. -/
def firstWrite (p : ItemField → Bool) : List ItemField → Option Str
  | [] => none
  | f :: fs => if p f && f.text != [] then some f.text else firstWrite p fs

def isTitleF (f : ItemField) : Bool := f.name.local_name == "title".toList

def isLinkF (f : ItemField) : Bool := f.name.local_name == "link".toList

def isDescF (f : ItemField) : Bool := f.name.local_name == "description".toList

def isEncodedF (f : ItemField) : Bool :=
  f.name.ns == some contentNs && f.name.local_name == "encoded".toList

def isPubDateF (f : ItemField) : Bool := f.name.local_name == "pubDate".toList

/-- Spec-side description of one item, seeded with the accumulator value
 `d`: the last plain `description` wins; otherwise the first
 `content:encoded` fills an empty accumulator. -/
def declDescFrom (fields : List ItemField) (d : Str) : Str :=
  match lastWrite isDescF fields with
  | some t => t
  | none => if d = [] then (firstWrite isEncodedF fields).getD d else d

def declTitleFrom (fields : List ItemField) (t : Str) : Str :=
  (lastWrite isTitleF fields).getD t

def declLinkFrom (fields : List ItemField) (l : Str) : Str :=
  (lastWrite isLinkF fields).getD l

def declPubDateFrom (fields : List ItemField) (p : Option Str) : Option Str :=
  match lastWrite isPubDateF fields with
  | some t => some t
  | none => p

/-- The entry an item with the given fields should produce: the
 spec-side field values, sanitized through `Rss::new`. -/
def expectedEntry (extract : Str → List Str) (fields : List ItemField) : Rss :=
  Rss.new extract (declTitleFrom fields []) (declDescFrom fields [])
    (declLinkFrom fields []) (declPubDateFrom fields none)

def itemsOf : List ChannelChild → List (List ItemField)
  | [] => []
  | .item fs :: cs => fs :: itemsOf cs
  | .junk _ _ :: cs => itemsOf cs

/-- The net effect of one rendered field's events on the RSS 2.0
 accumulator (the element frame is pushed and popped around the text
 node, so only the accumulator fields change): the dispatch mirrors the
 match arms of `RssV20::parse_content`, in source order. -/
def fieldUpd (f : ItemField) (st : PState) : PState :=
  if f.text = [] then st
  else if isTitleF f then { st with title := f.text }
  else if isLinkF f then { st with link := f.text }
  else if isDescF f then { st with description := f.text }
  else if isEncodedF f then
    if st.description = [] then { st with description := f.text } else st
  else if isPubDateF f then { st with pub_date := some f.text }
  else st

/-! ## Instrumentation and claim-level predicates -/

/-- Number of `verify_rss` invocations performed by the `parse` loop on
 the given input.  The count does not depend on the parser state (the
 loop verifies exactly when the `root` flag is set and a `StartElement`
 arrives, on the frame just pushed), so the state is not threaded. -/
def verifyCountLoop (k : Dialect) : List ReaderItem → Bool → Nat
  | [], _ => 0
  | .error _ :: _, _ => 0
  | .ok ev :: rest, root =>
    match ev with
    | .startDocument enc =>
      if asciiUpper enc != "UTF-8".toList then 0 else verifyCountLoop k rest root
    | .startElement n a =>
      if root then
        1 + (match verifyRssPair k (n, a) with
             | .ok _ => verifyCountLoop k rest false
             | .error _ => 0)
      else verifyCountLoop k rest false
    | _ => verifyCountLoop k rest root

/-- Reader items that can precede the root element of a real document:
 a UTF-8 `StartDocument`, stray character data, or ignored events. -/
def cleanPre (pre : List ReaderItem) : Prop :=
  ∀ x ∈ pre,
    (∃ e, x = .ok (.startDocument e) ∧ asciiUpper e = "UTF-8".toList) ∨
    (∃ d, x = .ok (.characters d)) ∨ x = .ok .other

/-- A message carries the dialect tag `[name]` the way the source
 formats it. -/
def taggedWith (k : Dialect) (m : Str) : Prop :=
  ∃ rest, m = "[".toList ++ dialectName k ++ "]".toList ++ rest

/-- Every `rel` attribute present allows the link capture (its value is
 `"self"` or `"alternate"`): the semantic reading of the `find(..).is_none()`
 guard in `Atom::parse_start_element`. -/
def relAllows (attrs : List OwnedAttribute) : Prop :=
  ∀ a ∈ attrs, qnameToString a.name = "rel".toList →
    (a.value = "self".toList ∨ a.value = "alternate".toList)

instance (attrs : List OwnedAttribute) : Decidable (relAllows attrs) := by
  unfold relAllows
  infer_instance

/-! ## Concrete instances used by counterexamples and witnesses -/

/-- A concrete text-node extraction: the raw string is a single text
 node (what `scraper` yields on markup-free text). -/
def extract0 : Str → List Str := fun s => [s]

def qnOf (localName : Str) (ns : Option Str) : QName := ⟨localName, none, ns⟩

def attrOf (localName v : Str) : OwnedAttribute := ⟨⟨localName, none, none⟩, v⟩

/-- An Atom document whose single entry holds an `atom:link` without
 `rel` (href `A`) followed by an `atom:link rel="self"` (href `B`). -/
def atomTwoLinkDoc (A B : Str) : List ReaderItem :=
  [.ok (.startDocument "UTF-8".toList),
   .ok (.startElement (qnOf "feed".toList (some atomNs)) []),
   .ok (.startElement (qnOf "entry".toList (some atomNs)) []),
   .ok (.startElement (qnOf "link".toList (some atomNs)) [attrOf "href".toList A]),
   .ok (.endElement (qnOf "link".toList (some atomNs))),
   .ok (.startElement (qnOf "link".toList (some atomNs))
         [attrOf "rel".toList "self".toList, attrOf "href".toList B]),
   .ok (.endElement (qnOf "link".toList (some atomNs))),
   .ok (.endElement (qnOf "entry".toList (some atomNs))),
   .ok (.endElement (qnOf "feed".toList (some atomNs)))]

/-- A well-formed document whose root element is `<channel>`. -/
def channelRootDoc : List ReaderItem :=
  [.ok (.startDocument "UTF-8".toList),
   .ok (.startElement channelQ []),
   .ok (.endElement channelQ)]

/-- A single-item RSS 2.0 document at the reader level, with
 `content:encoded` text `d1` and plain `description` text `d2`, in the
 given order. -/
def rssV20TwoDescDoc (encodedFirst : Bool) (d1 d2 : Str) : List ReaderItem :=
  let enc := [.ok (.startElement (qnOf "encoded".toList (some contentNs)) []),
              .ok (.characters d1),
              .ok (.endElement (qnOf "encoded".toList (some contentNs)))]
  let des := [.ok (.startElement (qnOf "description".toList none) []),
              .ok (.characters d2),
              .ok (.endElement (qnOf "description".toList none))]
  [.ok (.startDocument "UTF-8".toList),
   .ok (.startElement rssQ [versionAttr]),
   .ok (.startElement channelQ []),
   .ok (.startElement itemQ [])] ++
  (if encodedFirst then enc ++ des else des ++ enc) ++
  [.ok (.endElement itemQ),
   .ok (.endElement channelQ),
   .ok (.endElement rssQ)]

/-- The RSS 1.0 counterpart of `rssV20TwoDescDoc`. -/
def rssV10TwoDescDoc (encodedFirst : Bool) (d1 d2 : Str) : List ReaderItem :=
  let itemN := qnOf "item".toList (some rdfNs)
  let enc := [.ok (.startElement (qnOf "encoded".toList (some contentNs)) []),
              .ok (.characters d1),
              .ok (.endElement (qnOf "encoded".toList (some contentNs)))]
  let des := [.ok (.startElement (qnOf "description".toList (some rdfNs)) []),
              .ok (.characters d2),
              .ok (.endElement (qnOf "description".toList (some rdfNs)))]
  [.ok (.startDocument "UTF-8".toList),
   .ok (.startElement (qnOf "RDF".toList (some rdfSyntaxNs)) []),
   .ok (.startElement itemN [])] ++
  (if encodedFirst then enc ++ des else des ++ enc) ++
  [.ok (.endElement itemN),
   .ok (.endElement (qnOf "RDF".toList (some rdfSyntaxNs)))]

/-- A response that always redirects to `u` — fetching through it yields
 an endless redirect chain. -/
def alwaysRedirect : Str → Response := fun _ => ⟨301, some "u".toList, []⟩

/-- A 251-character, 502-byte text node (each `é` is two UTF-8 bytes). -/
def eNode : Str := List.replicate 251 'é'

/-- A redirect chain of exactly three redirects ending in a 200:
 `"a" → "b" → "c" → "d"`. -/
def chainFetch : Str → Response := fun u =>
  if u = "a".toList then ⟨301, some "b".toList, []⟩
  else if u = "b".toList then ⟨302, some "c".toList, []⟩
  else if u = "c".toList then ⟨303, some "d".toList, []⟩
  else ⟨200, none, []⟩

/-! # Theorems -/

theorem utf8Len_append (a b : Str) : utf8Len (a ++ b) = utf8Len a + utf8Len b := by
  induction a with
  | nil => simp [utf8Len]
  | cons c cs ih => simp [utf8Len, ih]; omega

theorem length_le_utf8Len (s : Str) : s.length ≤ utf8Len s := by
  induction s with
  | nil => simp [utf8Len]
  | cons c cs ih =>
    have := Char.utf8Size_pos c
    simp [utf8Len]
    omega

theorem utf8Len_take_le (l : Nat) (s : Str) :
    utf8Len (List.take l s) ≤ utf8Len s := by
  conv_rhs => rw [← List.take_append_drop l s]
  rw [utf8Len_append]
  omega

/-- Once the accumulator's byte length exceeds the limit, the loop breaks
 immediately, whatever text nodes remain. -/
theorem pickTextsLoop_break (nodes : List Str) (texts : Str)
    (h : descriptionLimit < utf8Len texts) : pickTextsLoop nodes texts = texts := by
  cases nodes with
  | nil => rfl
  | cons t rest => simp [pickTextsLoop, h]

/-- A truncating step: the current node is cut after `limit` characters,
 the `"..."` marker is appended, and the remaining nodes are never
 processed. -/
theorem pickTextsLoop_truncate (texts t : Str) (rest : List Str)
    (h : utf8Len texts ≤ descriptionLimit)
    (ht : descriptionLimit - utf8Len texts < utf8Len t) :
    pickTextsLoop (t :: rest) texts =
      texts ++ List.take (descriptionLimit - utf8Len texts) t ++ dots := by
  have hno : ¬ descriptionLimit < utf8Len texts := by omega
  have step : pickTextsLoop (t :: rest) texts =
      pickTextsLoop rest (texts ++ List.take (descriptionLimit - utf8Len texts) t ++ dots) := by
    simp [pickTextsLoop, hno, ht]
  rw [step]
  apply pickTextsLoop_break
  -- the new accumulator is past the limit: the pushed prefix either is
  -- the whole node (whose byte length exceeds the budget) or holds
  -- `limit` characters of at least one byte each
  set lim := descriptionLimit - utf8Len texts with hlim
  have hbound : lim < utf8Len (List.take lim t) + utf8Len dots := by
    by_cases hc : t.length ≤ lim
    · rw [List.take_of_length_le hc]
      have : utf8Len dots = 3 := by decide
      omega
    · push_neg at hc
      have hlen : (List.take lim t).length = lim := by
        rw [List.length_take]
        omega
      have := length_le_utf8Len (List.take lim t)
      have : utf8Len dots = 3 := by decide
      omega
  rw [utf8Len_append, utf8Len_append]
  omega

/-- When every text node fits the remaining byte budget, the loop is
 plain concatenation. -/
theorem pickTextsLoop_all_fit (nodes : List Str) (texts : Str)
    (h : utf8Len texts + utf8Len (List.flatten nodes) ≤ descriptionLimit) :
    pickTextsLoop nodes texts = texts ++ List.flatten nodes := by
  induction nodes generalizing texts with
  | nil => simp [pickTextsLoop]
  | cons t rest ih =>
    rw [List.flatten_cons, utf8Len_append] at h
    have hno : ¬ descriptionLimit < utf8Len texts := by omega
    have hfit : ¬ descriptionLimit - utf8Len texts < utf8Len t := by omega
    have step : pickTextsLoop (t :: rest) texts = pickTextsLoop rest (texts ++ t) := by
      simp [pickTextsLoop, hno, hfit]
    rw [step, ih (texts ++ t) (by rw [utf8Len_append]; omega)]
    simp

/-- Character-count bound on the loop's output. -/
theorem pickTextsLoop_length (nodes : List Str) (texts : Str)
    (h : utf8Len texts ≤ descriptionLimit) :
    (pickTextsLoop nodes texts).length ≤
      texts.length + (descriptionLimit - utf8Len texts) + 3 := by
  induction nodes generalizing texts with
  | nil => simp [pickTextsLoop]; omega
  | cons t rest ih =>
    by_cases ht : descriptionLimit - utf8Len texts < utf8Len t
    · rw [pickTextsLoop_truncate texts t rest h ht]
      have h1 : (List.take (descriptionLimit - utf8Len texts) t).length ≤
          descriptionLimit - utf8Len texts := by
        rw [List.length_take]; omega
      have h2 : dots.length = 3 := by decide
      simp only [List.length_append, h2]
      omega
    · have hno : ¬ descriptionLimit < utf8Len texts := by omega
      have step : pickTextsLoop (t :: rest) texts = pickTextsLoop rest (texts ++ t) := by
        simp [pickTextsLoop, hno, ht]
      rw [step]
      have hle : utf8Len (texts ++ t) ≤ descriptionLimit := by
        rw [utf8Len_append]; omega
      have := ih (texts ++ t) hle
      have htl := length_le_utf8Len t
      rw [List.length_append, utf8Len_append] at this
      omega

/-- C10: the sanitizer is total and its string slice is always in
 bounds: the `end` index it computes (`sliceEnd`) never exceeds the text
 node's byte length and always falls on a character boundary, so
 `&text[..end]` cannot panic. -/
theorem pick_texts_slice_safe :
    ∀ (text : Str) (limit : Nat),
      sliceEnd text limit ≤ utf8Len text ∧
      ∃ a b, text = a ++ b ∧ utf8Len a = sliceEnd text limit := by
  intro text limit
  refine ⟨utf8Len_take_le limit text, List.take limit text, List.drop limit text, ?_, rfl⟩
  simp

/-- C9: the dispatcher is a pure function of the input buffer — two runs
 on equal byte buffers give equal results (entry lists or errors); the
 parse holds no mutable global or cross-call state (each attempt starts
 from a fresh `initState`). -/
theorem parse_rss_deterministic :
    ∀ (extract : Str → List Str) (b1 b2 : List ReaderItem),
      b1 = b2 → parse_rss extract b1 = parse_rss extract b2 := by
  intro extract b1 b2 h
  rw [h]

theorem parse_rss_deterministic_witness :
    parse_rss extract0 channelRootDoc = parse_rss extract0 channelRootDoc :=
  parse_rss_deterministic extract0 channelRootDoc channelRootDoc rfl

theorem not_success_of_redirection (s : Nat) (h : isRedirectionStatus s = true) :
    isSuccessStatus s = false := by
  simp only [isRedirectionStatus, Bool.and_eq_true, decide_eq_true_eq] at h
  simp only [isSuccessStatus, Bool.and_eq_false_iff, decide_eq_false_iff_not]
  omega

theorem followFetches_le (fetch : Str → Response) :
    ∀ (limit : Nat) (res : Response), followFetches fetch limit res ≤ limit := by
  intro limit
  induction limit with
  | zero =>
    intro res
    simp only [followFetches]
    split <;> exact Nat.le_refl 0
  | succ l ih =>
    intro res
    by_cases hs : isSuccessStatus res.status = true
    · simp [followFetches, hs]
    · have hs' : isSuccessStatus res.status = false := by simpa using hs
      by_cases hr : isRedirectionStatus res.status = true
      · cases hloc : res.location with
        | some url =>
          have hih := ih (fetch url)
          have heq : followFetches fetch (l + 1) res =
              1 + followFetches fetch l (fetch url) := by
            simp [followFetches, hs', hr, hloc]
          rw [heq]
          omega
        | none => simp [followFetches, hs', hr, hloc]
      · have hr' : isRedirectionStatus res.status = false := by simpa using hr
        simp [followFetches, hs', hr']

/-- A redirect response with a Location, while budget remains, is
 followed. -/
theorem retrieve_step (extract : Str → List Str) (fetch : Str → Response)
    (l : Nat) (s : Nat) (u : Str) (b : List ReaderItem)
    (hr : isRedirectionStatus s = true) :
    retrieveResponse extract fetch (l + 1) ⟨s, some u, b⟩ =
      retrieveResponse extract fetch l (fetch u) := by
  have hs := not_success_of_redirection s hr
  simp [retrieveResponse, hs, hr]

theorem retrieve_success (extract : Str → List Str) (fetch : Str → Response)
    (l : Nat) (res : Response) (hs : isSuccessStatus res.status = true) :
    retrieveResponse extract fetch l res = toHttpOut (parse_rss extract res.body) := by
  cases l <;> simp [retrieveResponse, hs]

theorem retrieve_exhausted (extract : Str → List Str) (fetch : Str → Response)
    (res : Response) (hs : isSuccessStatus res.status = false) :
    retrieveResponse extract fetch 0 res = .echo res.status := by
  simp [retrieveResponse, hs]

/-- C2 counterexample: on an endless redirect chain the claim demands the
 redirect-limit failure surface as `500 Internal Server Error`, but the
 code echoes the fourth redirect's own status (301) with empty body —
 once the budget is 0 a redirect falls to the pass-through branch. -/
theorem redirect_limit_counterexample :
    get_feed extract0 alwaysRedirect "u".toList = .echo 301 ∧
    HttpOut.echo 301 ≠ HttpOut.internalServerError :=
  ⟨rfl, by decide⟩

/-- C2 (amended): every fetch performs at most 4 fetch operations
 (initial request plus a budget of 3 redirects); a chain of exactly 3
 redirects followed by a 2xx yields the parsed result; a chain of 4 or
 more redirect responses stops after the third follow and echoes the
 fourth redirect's status with empty body (no redirect-limit 500); a
 redirect response missing the Location header fails with
 `500 Internal Server Error` immediately, whatever budget remains. -/
theorem redirect_protocol :
    (∀ fetch url, getFeedFetches fetch url ≤ 4) ∧
    (∀ (extract : Str → List Str) (fetch : Str → Response) (u0 u1 u2 u3 : Str)
       (s0 s1 s2 : Nat) (b0 b1 b2 : List ReaderItem) (r3 : Response),
       fetch u0 = ⟨s0, some u1, b0⟩ → isRedirectionStatus s0 = true →
       fetch u1 = ⟨s1, some u2, b1⟩ → isRedirectionStatus s1 = true →
       fetch u2 = ⟨s2, some u3, b2⟩ → isRedirectionStatus s2 = true →
       fetch u3 = r3 → isSuccessStatus r3.status = true →
       get_feed extract fetch u0 = toHttpOut (parse_rss extract r3.body)) ∧
    (∀ (extract : Str → List Str) (fetch : Str → Response) (u0 u1 u2 u3 : Str)
       (s0 s1 s2 s3 : Nat) (b0 b1 b2 b3 : List ReaderItem) (loc3 : Option Str),
       fetch u0 = ⟨s0, some u1, b0⟩ → isRedirectionStatus s0 = true →
       fetch u1 = ⟨s1, some u2, b1⟩ → isRedirectionStatus s1 = true →
       fetch u2 = ⟨s2, some u3, b2⟩ → isRedirectionStatus s2 = true →
       fetch u3 = ⟨s3, loc3, b3⟩ → isRedirectionStatus s3 = true →
       get_feed extract fetch u0 = .echo s3) ∧
    (∀ (extract : Str → List Str) (fetch : Str → Response) (l : Nat) (res : Response),
       isRedirectionStatus res.status = true → res.location = none →
       retrieveResponse extract fetch (l + 1) res = .internalServerError) := by
  refine ⟨?_, ?_, ?_, ?_⟩
  · intro fetch url
    have := followFetches_le fetch 3 (fetch url)
    simp only [getFeedFetches]
    omega
  · intro extract fetch u0 u1 u2 u3 s0 s1 s2 b0 b1 b2 r3 h0 hr0 h1 hr1 h2 hr2 h3 hs3
    show retrieveResponse extract fetch 3 (fetch u0) = _
    rw [h0, retrieve_step extract fetch 2 s0 u1 b0 hr0, h1,
      retrieve_step extract fetch 1 s1 u2 b1 hr1, h2,
      retrieve_step extract fetch 0 s2 u3 b2 hr2, h3,
      retrieve_success extract fetch 0 r3 hs3]
  · intro extract fetch u0 u1 u2 u3 s0 s1 s2 s3 b0 b1 b2 b3 loc3 h0 hr0 h1 hr1 h2 hr2 h3 hr3
    show retrieveResponse extract fetch 3 (fetch u0) = _
    rw [h0, retrieve_step extract fetch 2 s0 u1 b0 hr0, h1,
      retrieve_step extract fetch 1 s1 u2 b1 hr1, h2,
      retrieve_step extract fetch 0 s2 u3 b2 hr2, h3,
      retrieve_exhausted extract fetch _ (not_success_of_redirection s3 hr3)]
  · intro extract fetch l res hr hloc
    have hs := not_success_of_redirection res.status hr
    simp [retrieveResponse, hs, hr, hloc]

theorem redirect_protocol_witness :
    getFeedFetches chainFetch "a".toList ≤ 4 ∧
    get_feed extract0 chainFetch "a".toList = toHttpOut (parse_rss extract0 []) ∧
    get_feed extract0 alwaysRedirect "u".toList = .echo 301 ∧
    retrieveResponse extract0 chainFetch (2 + 1) ⟨301, none, []⟩ = .internalServerError :=
  ⟨redirect_protocol.1 chainFetch "a".toList,
   redirect_protocol.2.1 extract0 chainFetch "a".toList "b".toList "c".toList "d".toList
     301 302 303 [] [] [] ⟨200, none, []⟩ rfl (by decide) rfl (by decide) rfl (by decide)
     rfl (by decide),
   redirect_protocol.2.2.1 extract0 alwaysRedirect "u".toList "u".toList "u".toList "u".toList
     301 301 301 301 [] [] [] [] (some "u".toList) rfl (by decide) rfl (by decide) rfl
     (by decide) rfl (by decide),
   redirect_protocol.2.2.2 extract0 chainFetch 2 ⟨301, none, []⟩ (by decide) rfl⟩

/-- C4 counterexample: on malformed XML (the reader itself errors, e.g.
 buffer `"<"`), all three dialect attempts fail with the reader's own
 message, which is aggregated untagged — the messages do not carry the
 dialect names, contrary to the claim's universal "each tagged". -/
theorem untagged_reader_error_counterexample :
    parse_rss extract0 [.error "e".toList] =
      .error ["e".toList, "e".toList, "e".toList] ∧
    ¬ taggedWith .v20 "e".toList := by
  refine ⟨rfl, ?_⟩
  rintro ⟨rest, h⟩
  simp [dialectName] at h

/-- C4 (amended): when all three dialects fail, `parse_rss` returns the
 three per-dialect failure messages concatenated in the fixed attempt
 order RSS 2.0, Atom, RSS 1.0; messages produced by the dialects' own
 structural checks are tagged `[RSS V2]` / `[Atom]` / `[RSS V1]` (as in
 the `<channel>`-root example), while an XML reader error is aggregated
 with its untagged message. -/
theorem parse_rss_error_aggregation :
    (∀ (extract : Str → List Str) (input : List ReaderItem) (e1 e2 e3 : List Str),
      parse extract .v20 input = .error e1 →
      parse extract .atom input = .error e2 →
      parse extract .v10 input = .error e3 →
      parse_rss extract input = .error (e1 ++ e2 ++ e3)) ∧
    (∀ extract, parse_rss extract channelRootDoc =
      .error [msgInvalidRoot .v20 "channel".toList,
              msgInvalidRoot .atom "channel".toList,
              msgInvalidRoot .v10 "channel".toList]) ∧
    (∀ k l, taggedWith k (msgInvalidRoot k l)) := by
  refine ⟨?_, ?_, ?_⟩
  · intro extract input e1 e2 e3 h1 h2 h3
    simp [parse_rss, h1, h2, h3]
  · intro extract
    rfl
  · intro k l
    cases k <;> exact ⟨" invalid root element: ".toList ++ l, rfl⟩

theorem parse_rss_error_aggregation_witness :
    parse_rss extract0 channelRootDoc =
      .error ([msgInvalidRoot .v20 "channel".toList] ++
              [msgInvalidRoot .atom "channel".toList] ++
              [msgInvalidRoot .v10 "channel".toList]) ∧
    taggedWith .v20 (msgInvalidRoot .v20 "channel".toList) :=
  ⟨parse_rss_error_aggregation.1 extract0 channelRootDoc
     [msgInvalidRoot .v20 "channel".toList]
     [msgInvalidRoot .atom "channel".toList]
     [msgInvalidRoot .v10 "channel".toList] rfl rfl rfl,
   parse_rss_error_aggregation.2.2 .v20 "channel".toList⟩

/-- C3 counterexample: a single text node of 251 two-byte characters is
 at most 500 characters, yet `pick_texts` does not return it unchanged —
 it appends the `"..."` marker, because the truncation trigger compares
 byte lengths (502 bytes), not character counts. -/
theorem pick_texts_char_limit_counterexample :
    eNode.length ≤ descriptionLimit ∧
    pick_texts [eNode] = eNode ++ dots ∧ eNode ++ dots ≠ eNode := by
  refine ⟨by decide, by decide, by decide⟩

/-- C3 (amended): `pick_texts` concatenates the text nodes in order and
 enforces the 500 limit on the accumulated UTF-8 **byte** length: the
 output is at most limit+3 characters; when every text node fits the
 remaining byte budget the concatenation is returned unchanged; once a
 node's byte length exceeds the remaining byte budget it is cut after
 budget-many whole characters, the literal `"..."` is appended, and no
 further text nodes are processed. -/
theorem pick_texts_byte_limit :
    (∀ nodes, (pick_texts nodes).length ≤ descriptionLimit + 3) ∧
    (∀ nodes, utf8Len (List.flatten nodes) ≤ descriptionLimit →
      pick_texts nodes = List.flatten nodes) ∧
    (∀ texts t rest, utf8Len texts ≤ descriptionLimit →
      descriptionLimit - utf8Len texts < utf8Len t →
      pickTextsLoop (t :: rest) texts =
        texts ++ List.take (descriptionLimit - utf8Len texts) t ++ dots ∧
      ∃ a, pickTextsLoop (t :: rest) texts = a ++ dots) := by
  refine ⟨?_, ?_, ?_⟩
  · intro nodes
    have h := pickTextsLoop_length nodes [] (by decide)
    simpa [pick_texts, utf8Len] using h
  · intro nodes h
    have := pickTextsLoop_all_fit nodes [] (by simpa [utf8Len] using h)
    simpa [pick_texts] using this
  · intro texts t rest h ht
    have heq := pickTextsLoop_truncate texts t rest h ht
    exact ⟨heq, texts ++ List.take (descriptionLimit - utf8Len texts) t, by simp [heq]⟩

/-- C1 counterexample: in an Atom entry holding an `atom:link` without
 `rel` (href `A`) followed by `atom:link rel="self"` (href `B`), the
 emitted entry's link is `B` — the `self` link's href, which the claim
 says can never be the result. -/
theorem atom_self_link_counterexample :
    parse extract0 .atom (atomTwoLinkDoc "A".toList "B".toList) =
      .ok [⟨[], [], "B".toList, none⟩] ∧ ("B".toList : Str) ≠ "A".toList :=
  ⟨rfl, by decide⟩

/-- C1 (amended): while an `atom:link` element is open, its (first)
 `href` value is captured as the link exactly when **no** `rel`
 attribute with a value other than `"self"` / `"alternate"` is present —
 i.e. when `rel` is absent or equals `"self"` or `"alternate"`; each
 capture overwrites the previous one, so with both a rel-less link and a
 `rel="self"` link in one entry the emitted link is the href of
 whichever comes last in document order. -/
theorem atom_link_capture :
    (∀ st n attrs a, n.ns = some atomNs → n.local_name = "link".toList →
      relAllows attrs →
      attrs.find? (fun a => qnameToString a.name == "href".toList) = some a →
      (parseStartElement .atom st n attrs).link = a.value) ∧
    (∀ st n attrs a₀, a₀ ∈ attrs → qnameToString a₀.name = "rel".toList →
      a₀.value ≠ "self".toList → a₀.value ≠ "alternate".toList →
      (parseStartElement .atom st n attrs).link = st.link) ∧
    (∀ (extract : Str → List Str) (A B : Str),
      parse extract .atom (atomTwoLinkDoc A B) = .ok [Rss.new extract [] [] B none]) := by
  refine ⟨?_, ?_, ?_⟩
  · intro st n attrs a h1 h2 hrel hhref
    simp only [parseStartElement, h1, h2]
    rw [if_pos, hhref]
    simp only [beq_self_eq_true, Bool.true_and, Option.isNone_iff_eq_none,
      List.find?_eq_none]
    intro x hx
    simp only [Bool.and_eq_true, beq_iff_eq, bne_iff_ne, ne_eq, not_and,
      Decidable.not_not, Bool.not_eq_true]
    rintro ⟨hname, hself⟩
    rcases hrel x hx hname with h | h
    · exact absurd h hself
    · exact h
  · intro st n attrs a₀ hmem hname hself halt
    simp only [parseStartElement]
    rw [if_neg]
    intro hcond
    simp only [Bool.and_eq_true, beq_iff_eq, Option.isNone_iff_eq_none,
      List.find?_eq_none, Bool.not_eq_true] at hcond
    have h2 := hcond.2 a₀ hmem
    simp only [Bool.and_eq_true, beq_iff_eq, bne_iff_ne, ne_eq, not_and,
      Decidable.not_not] at h2
    exact halt (h2 ⟨hname, hself⟩)
  · intro extract A B
    rfl

theorem atom_link_capture_witness :
    (parseStartElement .atom initState (qnOf "link".toList (some atomNs))
      [attrOf "href".toList "H".toList]).link = "H".toList ∧
    (parseStartElement .atom initState (qnOf "link".toList (some atomNs))
      [attrOf "rel".toList "enclosure".toList,
       attrOf "href".toList "H".toList]).link = initState.link ∧
    parse extract0 .atom (atomTwoLinkDoc "A".toList "B".toList) =
      .ok [Rss.new extract0 [] [] "B".toList none] :=
  ⟨atom_link_capture.1 initState (qnOf "link".toList (some atomNs))
     [attrOf "href".toList "H".toList] (attrOf "href".toList "H".toList)
     rfl rfl (by decide) (by decide),
   atom_link_capture.2.1 initState (qnOf "link".toList (some atomNs))
     [attrOf "rel".toList "enclosure".toList, attrOf "href".toList "H".toList]
     (attrOf "rel".toList "enclosure".toList)
     (by decide) (by decide) (by decide) (by decide),
   atom_link_capture.2.2 extract0 "A".toList "B".toList⟩

/-- C5: `content:encoded` is a fallback source for the description, not
 an override: in RSS 2.0 and RSS 1.0 a `content:encoded` text node inside
 an item is stored only while the description accumulator is still
 empty, while a plain `description` overwrites unconditionally; hence in
 a single-item document holding both, the plain `description` text is
 the one emitted, in either source order. -/
theorem content_encoded_fallback :
    (∀ (st : PState) (d : Str) name attrs pn pa rest,
      st.elements = (name, attrs) :: (pn, pa) :: rest →
      isItemV20 pn = true → name.ns = some contentNs →
      name.local_name = "encoded".toList →
      (st.description = [] → (parseContent .v20 st d).description = d) ∧
      (st.description ≠ [] → (parseContent .v20 st d).description = st.description)) ∧
    (∀ (st : PState) (d : Str) name attrs pn pa rest,
      st.elements = (name, attrs) :: (pn, pa) :: rest →
      isItemV10 pn = true → name.ns = some contentNs →
      name.local_name = "encoded".toList →
      (st.description = [] → (parseContent .v10 st d).description = d) ∧
      (st.description ≠ [] → (parseContent .v10 st d).description = st.description)) ∧
    (∀ (extract : Str → List Str) (d1 d2 : Str),
      parse extract .v20 (rssV20TwoDescDoc true d1 d2) =
        .ok [Rss.new extract [] d2 [] none]) ∧
    (∀ (extract : Str → List Str) (d1 d2 : Str), d2 ≠ [] →
      parse extract .v20 (rssV20TwoDescDoc false d1 d2) =
        .ok [Rss.new extract [] d2 [] none]) ∧
    (∀ (extract : Str → List Str) (d1 d2 : Str),
      parse extract .v10 (rssV10TwoDescDoc true d1 d2) =
        .ok [Rss.new extract [] d2 [] none]) ∧
    (∀ (extract : Str → List Str) (d1 d2 : Str), d2 ≠ [] →
      parse extract .v10 (rssV10TwoDescDoc false d1 d2) =
        .ok [Rss.new extract [] d2 [] none]) := by
  refine ⟨?_, ?_, ?_, ?_, ?_, ?_⟩
  · intro st d name attrs pn pa rest helts hitem hns hlocal
    have henc : name.local_name ≠ "title".toList ∧ name.local_name ≠ "link".toList ∧
        name.local_name ≠ "description".toList := by
      rw [hlocal]
      refine ⟨by decide, by decide, by decide⟩
    constructor
    · intro hd
      simp [parseContent, helts, hitem, hns, hlocal, hd, henc.1, henc.2.1, henc.2.2]
    · intro hd
      have hb : (st.description == ([] : Str)) = false := by simpa using hd
      simp [parseContent, helts, hitem, hns, hlocal, hb, henc.1, henc.2.1, henc.2.2]
  · intro st d name attrs pn pa rest helts hitem hns hlocal
    have hns' : name.ns ≠ some rdfNs := by
      rw [hns]
      decide
    constructor
    · intro hd
      simp [parseContent, helts, hitem, hns, hlocal, hd, hns']
    · intro hd
      have hb : (st.description == ([] : Str)) = false := by simpa using hd
      simp [parseContent, helts, hitem, hns, hlocal, hb, hns']
  · intro extract d1 d2
    rfl
  · intro extract d1 d2 h
    have hb : (d2 == ([] : Str)) = false := by simpa using h
    simp [rssV20TwoDescDoc, parse, parseLoop, parseStartElement, parseContent,
      parseEndElement, isBoundary, verifyRssPair, hb, rssQ, channelQ, itemQ,
      versionAttr, qnOf, qnameToString, isItemV20, asciiUpper, asciiUpperChar,
      initState]
  · intro extract d1 d2
    rfl
  · intro extract d1 d2 h
    have hb : (d2 == ([] : Str)) = false := by simpa using h
    simp [rssV10TwoDescDoc, parse, parseLoop, parseStartElement, parseContent,
      parseEndElement, isBoundary, verifyRssPair, hb, qnOf, qnameToString,
      isItemV10, eqIgnoreAsciiCase, asciiLowerChar, asciiUpper, asciiUpperChar,
      initState]

theorem content_encoded_fallback_witness :
    (parseContent .v20
      { initState with
        elements := [(qnOf "encoded".toList (some contentNs), []), (itemQ, [])] }
      "E".toList).description = "E".toList ∧
    parse extract0 .v20 (rssV20TwoDescDoc false "E".toList "D".toList) =
      .ok [Rss.new extract0 [] "D".toList [] none] ∧
    parse extract0 .v10 (rssV10TwoDescDoc false "E".toList "D".toList) =
      .ok [Rss.new extract0 [] "D".toList [] none] :=
  ⟨(content_encoded_fallback.1
      { initState with
        elements := [(qnOf "encoded".toList (some contentNs), []), (itemQ, [])] }
      "E".toList (qnOf "encoded".toList (some contentNs)) [] itemQ [] []
      rfl (by decide) rfl rfl).1 rfl,
   content_encoded_fallback.2.2.2.1 extract0 "E".toList "D".toList (by decide),
   content_encoded_fallback.2.2.2.2.2 extract0 "E".toList "D".toList (by decide)⟩

theorem pick_texts_byte_limit_witness :
    (pick_texts ["ab".toList]).length ≤ descriptionLimit + 3 ∧
    pick_texts ["ab".toList] = List.flatten ["ab".toList] ∧
    pickTextsLoop [eNode] [] =
      [] ++ List.take (descriptionLimit - utf8Len []) eNode ++ dots :=
  ⟨pick_texts_byte_limit.1 ["ab".toList],
   pick_texts_byte_limit.2.1 ["ab".toList] (by decide),
   (pick_texts_byte_limit.2.2 [] eNode [] (by decide) (by decide)).1⟩
theorem find_version_unique (attrs : List OwnedAttribute)
    (hnd : List.Pairwise (fun a b => qnameToString a.name ≠ qnameToString b.name) attrs)
    (a b : OwnedAttribute) (ha : a ∈ attrs) (hb : b ∈ attrs)
    (hna : qnameToString a.name = "version".toList)
    (hnb : qnameToString b.name = "version".toList) : a = b := by
  by_contra hne
  have hsym : Symmetric (fun a b : OwnedAttribute =>
      qnameToString a.name ≠ qnameToString b.name) := by
    intro x y hxy he
    exact hxy he.symm
  have := List.Pairwise.forall hsym hnd ha hb hne
  exact this (hna.trans hnb.symm)

/-- C8: RSS 2.0 root verification succeeds exactly when the root's local
 name is `rss` and it carries a `version` attribute valued exactly
 `"2.0"` (attribute names are unique in a well-formed document); a
 present `version` with another value yields the unsupported-version
 message, an absent one the distinct undefined-version message. -/
theorem rss_v20_root_verification :
    ∀ (n : QName) (attrs : List OwnedAttribute),
      List.Pairwise (fun a b => qnameToString a.name ≠ qnameToString b.name) attrs →
      ((verifyRssPair .v20 (n, attrs) = .ok () ↔
        n.local_name = "rss".toList ∧
        ∃ a ∈ attrs, qnameToString a.name = "version".toList ∧ a.value = "2.0".toList) ∧
      (∀ a, n.local_name = "rss".toList →
        attrs.find? (fun a => qnameToString a.name == "version".toList) = some a →
        a.value ≠ "2.0".toList →
        verifyRssPair .v20 (n, attrs) = .error [msgUnsupportedVersion a.value]) ∧
      (n.local_name = "rss".toList →
        attrs.find? (fun a => qnameToString a.name == "version".toList) = none →
        verifyRssPair .v20 (n, attrs) = .error [msgUndefinedVersion]) ∧
      (∀ v, msgUnsupportedVersion v ≠ msgUndefinedVersion)) := by
  intro n attrs hnd
  refine ⟨?_, ?_, ?_, ?_⟩
  · constructor
    · intro hok
      by_cases hl : n.local_name = "rss".toList
      · refine ⟨hl, ?_⟩
        cases hf : attrs.find? (fun a => qnameToString a.name == "version".toList) with
        | none =>
          simp only [verifyRssPair] at hok
          rw [hl, hf] at hok
          simp at hok
        | some a =>
          by_cases hv : a.value = "2.0".toList
          · have hmem := List.mem_of_find?_eq_some hf
            have hname : qnameToString a.name = "version".toList := by
              have := List.find?_some hf
              simpa using this
            exact ⟨a, hmem, hname, hv⟩
          · simp only [verifyRssPair] at hok
            rw [hl, hf] at hok
            simp at hok
            exact absurd hok hv
      · simp only [verifyRssPair] at hok
        have hcond : (n.local_name != "rss".toList) = true := by simpa using hl
        rw [hcond] at hok
        simp at hok
    · rintro ⟨hl, a, hmem, hname, hv⟩
      have hsome : (attrs.find? (fun a => qnameToString a.name == "version".toList)).isSome := by
        rw [List.find?_isSome]
        exact ⟨a, hmem, by simp [hname]⟩
      rw [Option.isSome_iff_exists] at hsome
      obtain ⟨b, hbf⟩ := hsome
      have hbmem := List.mem_of_find?_eq_some hbf
      have hbname : qnameToString b.name = "version".toList := by
        have := List.find?_some hbf
        simpa using this
      have hab : a = b := find_version_unique attrs hnd a b hmem hbmem hname hbname
      subst hab
      simp only [verifyRssPair]
      rw [hl, hbf]
      simp [hv]
  · intro a hl hf hv
    simp only [verifyRssPair]
    rw [hl, hf]
    simp
    exact hv
  · intro hl hf
    simp only [verifyRssPair]
    rw [hl, hf]
    simp
  · intro v h
    have h12 := congrArg (fun l => List.take 12 l) h
    simp only [msgUnsupportedVersion, msgUndefinedVersion] at h12
    rw [List.take_append_of_le_length (by decide)] at h12
    exact absurd h12 (by decide)

theorem rss_v20_root_verification_witness :
    (verifyRssPair .v20 (rssQ, [versionAttr]) = .ok () ↔
      rssQ.local_name = "rss".toList ∧
      ∃ a ∈ [versionAttr], qnameToString a.name = "version".toList ∧
        a.value = "2.0".toList) ∧
    msgUnsupportedVersion "1.0".toList ≠ msgUndefinedVersion :=
  ⟨(rss_v20_root_verification rssQ [versionAttr] (by simp)).1,
   (rss_v20_root_verification rssQ [versionAttr] (by simp)).2.2.2 "1.0".toList⟩
theorem parseContent_nil_elements (k : Dialect) (st : PState) (d : Str)
    (h : st.elements = []) : parseContent k st d = st := by
  cases k <;> simp [parseContent, isMediaDescription, h]

theorem verifyCountLoop_root_done (k : Dialect) :
    ∀ (post : List ReaderItem), verifyCountLoop k post false = 0 := by
  intro post
  induction post with
  | nil => rfl
  | cons x xs ih =>
    cases x with
    | error e => rfl
    | ok ev =>
      cases ev with
      | startDocument enc => simp [verifyCountLoop, ih]
      | startElement n a => simp [verifyCountLoop, ih]
      | characters d => simp [verifyCountLoop, ih]
      | endElement n => simp [verifyCountLoop, ih]
      | other => simp [verifyCountLoop, ih]

theorem parseLoop_clean_pre (extract : Str → List Str) (k : Dialect) :
    ∀ (pre rest : List ReaderItem), cleanPre pre →
      parseLoop extract k (pre ++ rest) initState true =
        parseLoop extract k rest initState true := by
  intro pre
  induction pre with
  | nil => intro rest h; rfl
  | cons x xs ih =>
    intro rest h
    have hx := h x (List.mem_cons_self x xs)
    have hxs : cleanPre xs := fun y hy => h y (List.mem_cons_of_mem x hy)
    rcases hx with ⟨e, hx, he⟩ | ⟨d, hx⟩ | hx
    · subst hx
      have hbne : (asciiUpper e != "UTF-8".toList) = false := by simp [he]
      simp only [List.cons_append, parseLoop, hbne, Bool.false_eq_true, if_false]
      exact ih rest hxs
    · subst hx
      simp only [List.cons_append, parseLoop,
        parseContent_nil_elements k initState d rfl]
      exact ih rest hxs
    · subst hx
      simp only [List.cons_append, parseLoop]
      exact ih rest hxs

theorem verifyCountLoop_clean_pre (k : Dialect) :
    ∀ (pre rest : List ReaderItem), cleanPre pre →
      verifyCountLoop k (pre ++ rest) true = verifyCountLoop k rest true := by
  intro pre
  induction pre with
  | nil => intro rest h; rfl
  | cons x xs ih =>
    intro rest h
    have hx := h x (List.mem_cons_self x xs)
    have hxs : cleanPre xs := fun y hy => h y (List.mem_cons_of_mem x hy)
    rcases hx with ⟨e, hx, he⟩ | ⟨d, hx⟩ | hx
    · subst hx
      have hbne : (asciiUpper e != "UTF-8".toList) = false := by simp [he]
      simp only [List.cons_append, verifyCountLoop, hbne, Bool.false_eq_true, if_false]
      exact ih rest hxs
    · subst hx
      simp only [List.cons_append, verifyCountLoop]
      exact ih rest hxs
    · subst hx
      simp only [List.cons_append, verifyCountLoop]
      exact ih rest hxs

/-- C7 counterexample: the claim's "before any content is accumulated"
 fails for the Atom parser: `Atom::parse_start_element` captures `href`
 into the link accumulator before `verify_rss` runs, so when the very
 first start-tag is an `atom:link` with an `href`, the state the root
 verification runs on (the frame just pushed onto the fresh state)
 already holds `"H"` as the link — content accumulated before
 verification. -/
theorem root_verification_link_counterexample :
    (parseStartElement .atom initState (qnOf "link".toList (some atomNs))
      [attrOf "href".toList "H".toList]).link = "H".toList ∧
    ("H".toList : Str) ≠ [] ∧ initState.link = [] :=
  ⟨rfl, by decide, rfl⟩

/-- C7 (amended): for every dialect parser and every document, the root
 verification runs exactly once, on the frame pushed by the first
 start-tag, with no results, title, description or date yet accumulated
 (the Atom parser may already have captured a root `atom:link`'s `href`
 into the link accumulator at that point); if it fails the parse is
 abandoned with that error, so no entries are ever produced. -/
theorem root_verification_once :
    ∀ (extract : Str → List Str) (k : Dialect) (pre : List ReaderItem)
      (n : QName) (a : List OwnedAttribute) (post : List ReaderItem),
      cleanPre pre →
      verifyCountLoop k (pre ++ .ok (.startElement n a) :: post) true = 1 ∧
      ((parseStartElement k initState n a).results = [] ∧
       (parseStartElement k initState n a).title = [] ∧
       (parseStartElement k initState n a).description = [] ∧
       (parseStartElement k initState n a).pub_date = none) ∧
      parse extract k (pre ++ .ok (.startElement n a) :: post) =
        (match verifyRssPair k (n, a) with
         | .error e => .error e
         | .ok _ => parseLoop extract k post (parseStartElement k initState n a) false) := by
  intro extract k pre n a post hpre
  refine ⟨?_, ?_, ?_⟩
  · rw [verifyCountLoop_clean_pre k pre _ hpre]
    cases hv : verifyRssPair k (n, a) with
    | ok u => simp [verifyCountLoop, hv, verifyCountLoop_root_done]
    | error e => simp [verifyCountLoop, hv]
  · cases k with
    | atom =>
      simp only [parseStartElement, initState]
      split
      · refine ⟨?_, ?_, ?_, ?_⟩ <;> (split <;> rfl)
      · exact ⟨rfl, rfl, rfl, rfl⟩
    | v20 => exact ⟨rfl, rfl, rfl, rfl⟩
    | v10 => exact ⟨rfl, rfl, rfl, rfl⟩
  · show parseLoop extract k _ initState true = _
    rw [parseLoop_clean_pre extract k pre _ hpre]
    cases hv : verifyRssPair k (n, a) with
    | ok u => simp [parseLoop, hv]
    | error e => simp [parseLoop, hv]

theorem root_verification_once_witness :
    verifyCountLoop .v20 ([.ok (.startDocument "UTF-8".toList)] ++
      .ok (.startElement channelQ []) :: []) true = 1 ∧
    parse extract0 .v20 ([.ok (.startDocument "UTF-8".toList)] ++
      .ok (.startElement channelQ []) :: []) =
      (match verifyRssPair .v20 (channelQ, []) with
       | .error e => .error e
       | .ok _ =>
         parseLoop extract0 .v20 [] (parseStartElement .v20 initState channelQ []) false) := by
  have h := root_verification_once extract0 .v20 [.ok (.startDocument "UTF-8".toList)]
    channelQ [] [] (by
      intro x hx
      simp only [List.mem_singleton] at hx
      subst hx
      exact Or.inl ⟨"UTF-8".toList, rfl, by decide⟩)
  exact ⟨h.1, h.2.2⟩

theorem fieldUpd_title (f : ItemField) (st : PState) :
    (fieldUpd f st).title = if isTitleF f = true ∧ f.text ≠ [] then f.text else st.title := by
  by_cases h0 : f.text = []
  · simp [fieldUpd, h0]
  · by_cases h1 : isTitleF f = true
    · simp [fieldUpd, h0, h1]
    · simp [fieldUpd, h0, h1, apply_ite PState.title]

theorem fieldUpd_link (f : ItemField) (st : PState) :
    (fieldUpd f st).link = if isLinkF f = true ∧ f.text ≠ [] then f.text else st.link := by
  by_cases h0 : f.text = []
  · simp [fieldUpd, h0]
  · by_cases h1 : isLinkF f = true
    · have ht : isTitleF f = false := by
        have := h1
        simp only [isLinkF, beq_iff_eq] at this
        simp only [isTitleF, this]
        decide
      simp [fieldUpd, h0, h1, ht]
    · simp [fieldUpd, h0, h1, apply_ite PState.link]

theorem fieldUpd_pub_date (f : ItemField) (st : PState) :
    (fieldUpd f st).pub_date =
      if isPubDateF f = true ∧ f.text ≠ [] then some f.text else st.pub_date := by
  by_cases h0 : f.text = []
  · simp [fieldUpd, h0]
  · by_cases h1 : isPubDateF f = true
    · have hln : f.name.local_name = "pubDate".toList := by
        simpa [isPubDateF] using h1
      have ht : isTitleF f = false := by
        simp only [isTitleF, hln]
        decide
      have hl : isLinkF f = false := by
        simp only [isLinkF, hln]
        decide
      have hd : isDescF f = false := by
        simp only [isDescF, hln]
        decide
      have he : isEncodedF f = false := by
        simp only [isEncodedF, hln]
        simp
      simp [fieldUpd, h0, h1, ht, hl, hd, he]
    · simp [fieldUpd, h0, h1, apply_ite PState.pub_date]

theorem fieldUpd_description (f : ItemField) (st : PState) :
    (fieldUpd f st).description =
      if isDescF f = true ∧ f.text ≠ [] then f.text
      else if isEncodedF f = true ∧ f.text ≠ [] ∧ st.description = [] then f.text
      else st.description := by
  by_cases h0 : f.text = []
  · simp [fieldUpd, h0]
  · by_cases hd : isDescF f = true
    · have hln : f.name.local_name = "description".toList := by
        simpa [isDescF] using hd
      have ht : isTitleF f = false := by
        simp only [isTitleF, hln]
        decide
      have hl : isLinkF f = false := by
        simp only [isLinkF, hln]
        decide
      simp [fieldUpd, h0, hd, ht, hl]
    · by_cases he : isEncodedF f = true
      · have hln : f.name.local_name = "encoded".toList := by
          simp only [isEncodedF, Bool.and_eq_true, beq_iff_eq] at he
          exact he.2
        have ht : isTitleF f = false := by
          simp only [isTitleF, hln]
          decide
        have hl : isLinkF f = false := by
          simp only [isLinkF, hln]
          decide
        by_cases hsd : st.description = []
        · simp [fieldUpd, h0, hd, he, ht, hl, hsd]
        · simp [fieldUpd, h0, hd, he, ht, hl, hsd]
      · simp [fieldUpd, h0, hd, he, apply_ite PState.description]

theorem fieldUpd_results (f : ItemField) (st : PState) :
    (fieldUpd f st).results = st.results := by
  simp [fieldUpd, apply_ite PState.results]

theorem fieldUpd_elements (f : ItemField) (st : PState) :
    (fieldUpd f st).elements = st.elements := by
  simp [fieldUpd, apply_ite PState.elements]

theorem declTitleFrom_comp (f : ItemField) (fs : List ItemField) (st : PState) :
    declTitleFrom fs (fieldUpd f st).title = declTitleFrom (f :: fs) st.title := by
  rw [fieldUpd_title]
  cases hl : lastWrite isTitleF fs with
  | some u => simp [declTitleFrom, lastWrite, hl]
  | none =>
    by_cases h1 : isTitleF f = true <;> by_cases h2 : f.text = [] <;>
      simp [declTitleFrom, lastWrite, hl, h1, h2]

theorem declLinkFrom_comp (f : ItemField) (fs : List ItemField) (st : PState) :
    declLinkFrom fs (fieldUpd f st).link = declLinkFrom (f :: fs) st.link := by
  rw [fieldUpd_link]
  cases hl : lastWrite isLinkF fs with
  | some u => simp [declLinkFrom, lastWrite, hl]
  | none =>
    by_cases h1 : isLinkF f = true <;> by_cases h2 : f.text = [] <;>
      simp [declLinkFrom, lastWrite, hl, h1, h2]

theorem declPubDateFrom_comp (f : ItemField) (fs : List ItemField) (st : PState) :
    declPubDateFrom fs (fieldUpd f st).pub_date = declPubDateFrom (f :: fs) st.pub_date := by
  rw [fieldUpd_pub_date]
  cases hl : lastWrite isPubDateF fs with
  | some u => simp [declPubDateFrom, lastWrite, hl]
  | none =>
    by_cases h1 : isPubDateF f = true <;> by_cases h2 : f.text = [] <;>
      simp [declPubDateFrom, lastWrite, hl, h1, h2]

theorem declDescFrom_comp (f : ItemField) (fs : List ItemField) (st : PState) :
    declDescFrom fs (fieldUpd f st).description = declDescFrom (f :: fs) st.description := by
  rw [fieldUpd_description]
  cases hl : lastWrite isDescF fs with
  | some u => simp [declDescFrom, lastWrite, hl]
  | none =>
    by_cases hd : isDescF f = true <;> by_cases ht : f.text = [] <;>
      by_cases he : isEncodedF f = true <;> by_cases hsd : st.description = [] <;>
      simp [declDescFrom, lastWrite, firstWrite, hl, hd, ht, he, hsd]

theorem fieldBlock (extract : Str → List Str) (f : ItemField) (st : PState)
    (es : List (QName × List OwnedAttribute)) (rest : List ReaderItem)
    (helts : st.elements = (itemQ, []) :: es)
    (hgood : qnameToString f.name ≠ "item".toList) :
    parseLoop extract .v20 (renderField f ++ rest) st false =
      parseLoop extract .v20 rest (fieldUpd f st) false := by
  have hni : isItemV20 f.name = false := by
    simp only [isItemV20, beq_eq_false_iff_ne, ne_eq]
    exact hgood
  have hitem : isItemV20 itemQ = true := by decide
  by_cases h0 : f.text = []
  · simp [renderField, h0, parseLoop, parseStartElement, parseEndElement,
      isBoundary, hni, fieldUpd]
  · by_cases h1 : f.name.local_name = ['t', 'i', 't', 'l', 'e']
    · simp [renderField, h0, parseLoop, parseStartElement, parseContent, helts,
        hitem, parseEndElement, isBoundary, hni, fieldUpd, isTitleF, h1]
    · by_cases h2 : f.name.local_name = ['l', 'i', 'n', 'k']
      · simp [renderField, h0, parseLoop, parseStartElement, parseContent, helts,
          hitem, parseEndElement, isBoundary, hni, fieldUpd, isTitleF, isLinkF, h1, h2]
      · by_cases h3 : f.name.local_name = ['d', 'e', 's', 'c', 'r', 'i', 'p', 't', 'i', 'o', 'n']
        · simp [renderField, h0, parseLoop, parseStartElement, parseContent, helts,
            hitem, parseEndElement, isBoundary, hni, fieldUpd, isTitleF, isLinkF,
            isDescF, h1, h2, h3]
        · by_cases h4a : f.name.local_name = ['e', 'n', 'c', 'o', 'd', 'e', 'd']
          · by_cases h4b : f.name.ns = some contentNs
            · by_cases h5 : st.description = ([] : Str)
              · simp [renderField, h0, parseLoop, parseStartElement, parseContent, helts,
                  hitem, parseEndElement, isBoundary, hni, fieldUpd, isTitleF, isLinkF,
                  isDescF, isEncodedF, h1, h2, h3, h4a, h4b, h5]
              · simp [renderField, h0, parseLoop, parseStartElement, parseContent, helts,
                  hitem, parseEndElement, isBoundary, hni, fieldUpd, isTitleF, isLinkF,
                  isDescF, isEncodedF, h1, h2, h3, h4a, h4b, h5]
                rw [← helts]
            · simp [renderField, h0, parseLoop, parseStartElement, parseContent, helts,
                hitem, parseEndElement, isBoundary, hni, fieldUpd, isTitleF, isLinkF,
                isDescF, isEncodedF, isPubDateF, h1, h2, h3, h4a, h4b]
              rw [← helts]
          · by_cases h6 : f.name.local_name = ['p', 'u', 'b', 'D', 'a', 't', 'e']
            · simp [renderField, h0, parseLoop, parseStartElement, parseContent, helts,
                hitem, parseEndElement, isBoundary, hni, fieldUpd, isTitleF, isLinkF,
                isDescF, isEncodedF, isPubDateF, h1, h2, h3, h4a, h6]
            · simp [renderField, h0, parseLoop, parseStartElement, parseContent, helts,
                hitem, parseEndElement, isBoundary, hni, fieldUpd, isTitleF, isLinkF,
                isDescF, isEncodedF, isPubDateF, h1, h2, h3, h4a, h6]
              rw [← helts]

theorem fieldsLoop (extract : Str → List Str) :
    ∀ (fields : List ItemField) (st : PState)
      (es : List (QName × List OwnedAttribute)) (rest : List ReaderItem),
      st.elements = (itemQ, []) :: es →
      (∀ f ∈ fields, qnameToString f.name ≠ "item".toList) →
      parseLoop extract .v20 (renderFields fields ++ rest) st false =
        parseLoop extract .v20 rest
          { st with title := declTitleFrom fields st.title,
                    link := declLinkFrom fields st.link,
                    description := declDescFrom fields st.description,
                    pub_date := declPubDateFrom fields st.pub_date } false := by
  intro fields
  induction fields with
  | nil =>
    intro st es rest h hg
    simp [renderFields, declTitleFrom, declLinkFrom, declDescFrom,
      declPubDateFrom, lastWrite, firstWrite]
  | cons f fs ih =>
    intro st es rest h hg
    rw [renderFields, List.append_assoc,
      fieldBlock extract f st es _ h (hg f (List.mem_cons_self f fs)),
      ih (fieldUpd f st) es rest
        (by rw [fieldUpd_elements, h])
        (fun g hgm => hg g (List.mem_cons_of_mem f hgm)),
      declTitleFrom_comp, declLinkFrom_comp, declDescFrom_comp, declPubDateFrom_comp,
      fieldUpd_results, fieldUpd_elements]

theorem textsLoop (extract : Str → List Str) :
    ∀ (ts : List Str) (st : PState) (n0 : QName) (a0 : List OwnedAttribute)
      (p0 : QName) (pa0 : List OwnedAttribute)
      (es : List (QName × List OwnedAttribute)) (rest : List ReaderItem),
      st.elements = (n0, a0) :: (p0, pa0) :: es → isItemV20 p0 = false →
      parseLoop extract .v20 (renderTexts ts ++ rest) st false =
        parseLoop extract .v20 rest st false := by
  intro ts
  induction ts with
  | nil => intro st n0 a0 p0 pa0 es rest h hp; rfl
  | cons t ts' ih =>
    intro st n0 a0 p0 pa0 es rest h hp
    have hc : parseContent .v20 st t = st := by
      simp [parseContent, h, hp]
    simp only [renderTexts, List.cons_append, parseLoop, hc]
    exact ih st n0 a0 p0 pa0 es rest h hp

theorem junkBlock (extract : Str → List Str) (n : QName) (ts : List Str)
    (st : PState) (p0 : QName) (pa0 : List OwnedAttribute)
    (es0 : List (QName × List OwnedAttribute)) (rest : List ReaderItem)
    (h : st.elements = (p0, pa0) :: es0) (hp : isItemV20 p0 = false)
    (hn : qnameToString n ≠ "item".toList) :
    parseLoop extract .v20 (renderChild (.junk n ts) ++ rest) st false =
      parseLoop extract .v20 rest st false := by
  have hni : isItemV20 n = false := by
    simp only [isItemV20, beq_eq_false_iff_ne, ne_eq]
    exact hn
  simp only [renderChild, List.cons_append, List.append_assoc]
  simp only [parseLoop, parseStartElement]
  rw [textsLoop extract ts _ n [] p0 pa0 es0 _ (by simp [h]) hp]
  simp [parseLoop, parseEndElement, isBoundary, hni]

theorem childrenLoop (extract : Str → List Str) :
    ∀ (cs : List ChannelChild) (st : PState) (rest : List ReaderItem),
      st.elements = [(channelQ, []), (rssQ, [versionAttr])] →
      st.title = [] → st.link = [] → st.description = [] → st.pub_date = none →
      goodChannel cs →
      parseLoop extract .v20 (renderChildren cs ++ rest) st false =
        parseLoop extract .v20 rest
          { st with results := st.results ++ (itemsOf cs).map (expectedEntry extract) }
          false := by
  intro cs
  induction cs with
  | nil =>
    intro st rest h ht hl hd hp hg
    simp [renderChildren, itemsOf]
  | cons c cs' ih =>
    intro st rest h ht hl hd hp hg
    have hgc : goodChild c := hg c (List.mem_cons_self c cs')
    have hgcs : goodChannel cs' := fun x hx => hg x (List.mem_cons_of_mem c hx)
    cases c with
    | junk n ts =>
      rw [renderChildren, List.append_assoc,
        junkBlock extract n ts st channelQ [] _ _ h (by decide) hgc,
        ih st rest h ht hl hd hp hgcs]
      simp [itemsOf]
    | item fs =>
      have hitem : isItemV20 itemQ = true := by decide
      rw [renderChildren, List.append_assoc]
      simp only [renderChild, List.cons_append, List.append_assoc]
      simp only [parseLoop, parseStartElement]
      rw [fieldsLoop extract fs _ st.elements _ rfl hgc]
      simp only [parseLoop, parseEndElement, isBoundary, hitem, if_true, ht, hl, hd, hp,
        Bool.false_eq_true, if_false, List.tail_cons, List.nil_append]
      rw [ih _ rest (by simp [h]) rfl rfl rfl rfl hgcs]
      simp [itemsOf, expectedEntry, h]

/-- C6: for every generated well-formed RSS 2.0 document (root
 `rss version="2.0"`, a `channel`, N `item` children interleaved with
 non-item elements), parsing yields exactly the N items' entries in
 document order — title and description through the sanitizer
 (`Rss::new`), link and pubDate text verbatim (last occurrence), with
 `content:encoded` as first-writer fallback; moreover text is ignored
 when fewer than two elements are open or when the immediate parent is
 not an item. -/
theorem rss_v20_document :
    (∀ (st : PState) (d : Str), st.elements.length < 2 → parseContent .v20 st d = st) ∧
    (∀ (st : PState) (d : Str) n a p pa rest, st.elements = (n, a) :: (p, pa) :: rest →
      isItemV20 p = false → parseContent .v20 st d = st) ∧
    (∀ (extract : Str → List Str) (cs : List ChannelChild), goodChannel cs →
      parse extract .v20 (renderDoc cs) =
        .ok ((itemsOf cs).map (expectedEntry extract))) := by
  refine ⟨?_, ?_, ?_⟩
  · intro st d h
    cases hel : st.elements with
    | nil => simp [parseContent, hel]
    | cons x xs =>
      cases xs with
      | nil => simp [parseContent, hel]
      | cons y ys =>
        rw [hel] at h
        simp at h
        omega
  · intro st d n a p pa rest hel hp
    simp [parseContent, hel, hp]
  · intro extract cs hg
    have he : (asciiUpper "UTF-8".toList != "UTF-8".toList) = false := by decide
    have hv : verifyRssPair .v20 (rssQ, [versionAttr]) = .ok () := rfl
    show parseLoop extract .v20 (renderDoc cs) initState true = _
    simp only [renderDoc, parseLoop, he, Bool.false_eq_true, if_false, if_true,
      parseStartElement, hv]
    rw [childrenLoop extract cs _ _ rfl rfl rfl rfl rfl hg]
    have hch : isItemV20 channelQ = false := by decide
    have hrs : isItemV20 rssQ = false := by decide
    simp [parseLoop, parseEndElement, isBoundary, hch, hrs, initState]

theorem rss_v20_document_witness :
    parseContent .v20 initState "d".toList = initState ∧
    parse extract0 .v20 (renderDoc
      [.item [⟨⟨"title".toList, none, none⟩, "T".toList⟩,
              ⟨⟨"link".toList, none, none⟩, "L".toList⟩],
       .junk ⟨"foo".toList, none, none⟩ ["x".toList],
       .item []]) =
      .ok ((itemsOf
        [.item [⟨⟨"title".toList, none, none⟩, "T".toList⟩,
                ⟨⟨"link".toList, none, none⟩, "L".toList⟩],
         .junk ⟨"foo".toList, none, none⟩ ["x".toList],
         .item []]).map (expectedEntry extract0)) :=
  ⟨rss_v20_document.1 initState "d".toList (by decide),
   rss_v20_document.2.2 extract0 _ (by decide)⟩

end Rssss
